import Mathlib

/-!
Verification of the nostrd relay core against its specification.

The development shallowly embeds the event store (`src/db.rs`), the query
planner (`query_from_sub` in `src/db.rs`) and the per-connection
subscription state (`src/conn.rs`).  Machine integers of the source are
modelled as `Nat`/`Int`; byte blobs (event hashes, pubkeys) are modelled
as `Nat`; fallible operations return explicit result values.

The `Event`, `Subscription` and `Filter` data shapes live in the
repository's `protocol.rs`, which is not part of the sources provided;
their fields are modelled from the spec (§3) and from how `db.rs` and
`conn.rs` use them.  In particular the hex-candidate values of a filter
(`authors`, `ids`, `events`, `pubkeys`) are modelled as raw strings, and
the `to_hex` rendering applied before the hex check is modelled as the
string itself.
-/

namespace Nostrd

/-- An event as it reaches the database writer.  Modelled from the spec:
the wire-level `Event` type (`protocol.rs` is not in the provided
sources).  `id` is the 32-byte content hash, `pubkey` the author key
blob, `etags`/`ptags` the already-decoded referenced event hashes and
pubkeys from `e`/`p` tags. -/
structure Event where
  id : Nat
  pubkey : Nat
  created_at : Int
  kind : Nat
  etags : List Nat
  ptags : List Nat
  content : String
deriving DecidableEq, Repr

/-- A row of the `event` table (schema in `INIT_SQL`, `src/db.rs`).
The `content` column stores the serialized event; we model it by the
event value itself. -/
structure Row where
  id : Nat
  event_hash : Nat
  first_seen : Int
  created_at : Int
  author : Nat
  kind : Nat
  hidden : Bool
  content : Event
deriving DecidableEq, Repr

/-- The SQLite store: the `event` table together with the two
materialized reference tables.  `nextId` models SQLite's rowid
allocation (`last_insert_rowid`). -/
structure Store where
  rows : List Row
  event_refs : List (Nat × Nat)
  pubkey_refs : List (Nat × Nat)
  nextId : Nat
deriving DecidableEq, Repr

def Store.empty : Store := ⟨[], [], [], 0⟩

/-- `INSERT OR IGNORE` against the unique index on `event_hash`
ignores the insert exactly when a row with the same hash exists. -/
def hasEvent (s : Store) (h : Nat) : Bool :=
  s.rows.any (fun r => r.event_hash == h)

/-- One row's update under
`UPDATE event SET hidden=TRUE WHERE id!=? AND kind=? AND author=? AND created_at <= ? and hidden!=TRUE`
(`src/db.rs`, `write_event`). -/
def hideStep (evId k a : Nat) (t : Int) (r : Row) : Row :=
  if r.id ≠ evId ∧ r.kind = k ∧ r.author = a ∧ r.created_at ≤ t ∧ r.hidden ≠ true
  then { r with hidden := true } else r

/-- Apply the hiding UPDATE to the whole `event` table. -/
def hideOlder (rows : List Row) (evId k a : Nat) (t : Int) : List Row :=
  rows.map (hideStep evId k a t)

/-- `write_event` (`src/db.rs` lines 222-288).  Returns the updated
store and the insert count (`0` = Duplicate, `1` = Inserted).  `now` is
the wall-clock second recorded as `first_seen` (`strftime('%s','now')`).
The duplicate check short-circuits before any reference insert or
hiding update; on insert, `e`/`p` tag references are materialized and,
for kinds 0 and 3, strictly older same-author events are hidden. -/
def write_event (now : Int) (s : Store) (e : Event) : Store × Nat :=
  if hasEvent s e.id then (s, 0)
  else
    let evId := s.nextId
    let row : Row :=
      { id := evId, event_hash := e.id, first_seen := now,
        created_at := e.created_at, author := e.pubkey, kind := e.kind,
        hidden := false, content := e }
    let erefs := e.etags.map (fun t => (evId, t))
    let prefs := e.ptags.map (fun t => (evId, t))
    let rows1 := s.rows ++ [row]
    let rows2 := if e.kind = 0 then hideOlder rows1 evId 0 e.pubkey e.created_at else rows1
    let rows3 := if e.kind = 3 then hideOlder rows2 evId 3 e.pubkey e.created_at else rows2
    ({ rows := rows3,
       event_refs := s.event_refs ++ erefs,
       pubkey_refs := s.pubkey_refs ++ prefs,
       nextId := evId + 1 }, 1)

/-- Rowids handed out by SQLite are below the next free rowid. -/
def StoreWF (s : Store) : Prop := ∀ r ∈ s.rows, r.id < s.nextId

instance (s : Store) : Decidable (StoreWF s) := by
  unfold StoreWF; infer_instance

/-- A row is a visible member of the `(author, kind)` pair. -/
def visMatch (a k : Nat) (r : Row) : Bool :=
  r.author = a ∧ r.kind = k ∧ r.hidden = false

/-- Number of visible rows for one `(author, kind)` pair. -/
def visCount (rows : List Row) (a k : Nat) : Nat :=
  (rows.filter (visMatch a k)).length

/-- The replaceable-event condition for one `(author, kind)` pair: at
most one visible row, and every visible row has maximal `created_at`
among all rows of the pair. -/
def ReplaceableOK (rows : List Row) (a k : Nat) : Prop :=
  visCount rows a k ≤ 1 ∧
  ∀ r1 ∈ rows, (r1.author = a ∧ r1.kind = k ∧ r1.hidden = false) →
    ∀ r2 ∈ rows, (r2.author = a ∧ r2.kind = k) → r2.created_at ≤ r1.created_at

instance (rows : List Row) (a k : Nat) : Decidable (ReplaceableOK rows a k) := by
  unfold ReplaceableOK; infer_instance

/-- The replaceable-event invariant (spec §3): for every `(author, kind)`
pair present in the store with kind 0 or 3, `ReplaceableOK` holds. -/
def ReplaceableInvariant (s : Store) : Prop :=
  ∀ r ∈ s.rows, (r.kind = 0 ∨ r.kind = 3) → ReplaceableOK s.rows r.author r.kind

instance (s : Store) : Decidable (ReplaceableInvariant s) := by
  unfold ReplaceableInvariant; infer_instance

/-- `is_hex` (`src/db.rs` lines 299-302): every character of the string
is an ASCII hex digit (`char::is_ascii_hexdigit`). -/
def isAsciiHexDigitChar (c : Char) : Bool :=
  decide (('0' ≤ c ∧ c ≤ '9') ∨ ('a' ≤ c ∧ c ≤ 'f') ∨ ('A' ≤ c ∧ c ≤ 'F'))

def is_hex (s : String) : Bool := s.data.all isAsciiHexDigitChar

/-- A subscription filter.  Modelled from the spec (§3): the recognized
fields are `ids`, `authors`, `kinds`, `events` (`#e`), `pubkeys` (`#p`),
`since` and `until`; omitted fields are `none`.  The hex-candidate
values are raw strings (the `to_hex` rendering applied by the planner is
modelled as the string itself, since `protocol.rs` is not in the
provided sources). -/
structure Filter where
  ids : Option (List String)
  authors : Option (List String)
  kinds : Option (List Nat)
  events : Option (List String)
  pubkeys : Option (List String)
  since : Option Int
  «until» : Option Int
deriving DecidableEq, Repr

/-- A subscription: an identifier plus a list of filters.  Modelled from
the spec (§3). -/
structure Subscription where
  id : String
  filters : List Filter
deriving DecidableEq, Repr

/-- Rust's `Vec::join`: concatenate with a separator between elements. -/
def joinSep (sep : String) : List String → String
  | [] => ""
  | [x] => x
  | x :: y :: xs => x ++ sep ++ joinSep sep (y :: xs)

/-- The escaped value list for a hex-string field: values failing
`is_hex` are dropped, the rest become blob literals. -/
def hexItems (vs : List String) : List String :=
  (vs.filter (fun v => is_hex v)).map (fun v => "x'" ++ v ++ "'")

/-- `format!("name IN ({})", items.join(", "))`. -/
def inClause (pre : String) (items : List String) : String :=
  pre ++ (joinSep ", " items ++ ")")

/-- The `authors` component (pushed whenever the field is present, even
if every value was dropped). -/
def authorsComp (f : Filter) : List String :=
  match f.authors with
  | some vs => [inClause "author IN (" (hexItems vs)]
  | none => []

/-- The `kinds` component: integers rendered as decimal literals. -/
def kindsComp (f : Filter) : List String :=
  match f.kinds with
  | some ks => [inClause "kind IN (" (ks.map (fun k => toString k))]
  | none => []

/-- The `ids` component. -/
def idsComp (f : Filter) : List String :=
  match f.ids with
  | some vs => [inClause "event_hash IN (" (hexItems vs)]
  | none => []

/-- The `events` (`#e`) component. -/
def eventsComp (f : Filter) : List String :=
  match f.events with
  | some vs => [inClause "referenced_event IN (" (hexItems vs)]
  | none => []

/-- The `pubkeys` (`#p`) component. -/
def pubkeysComp (f : Filter) : List String :=
  match f.pubkeys with
  | some vs => [inClause "referenced_pubkey IN (" (hexItems vs)]
  | none => []

/-- The `since` component: a strict lower bound. -/
def sinceComp (f : Filter) : List String :=
  match f.since with
  | some v => ["created_at > " ++ toString v]
  | none => []

/-- The `until` component: a strict upper bound. -/
def untilComp (f : Filter) : List String :=
  match f.«until» with
  | some v => ["created_at < " ++ toString v]
  | none => []

/-- The per-filter components pushed by `query_from_sub`
(`src/db.rs` lines 316-386), in source order: authors, kinds, ids,
events, pubkeys, since, until. -/
def filterComponents (f : Filter) : List String :=
  authorsComp f ++ kindsComp f ++ idsComp f ++ eventsComp f ++
    pubkeysComp f ++ sinceComp f ++ untilComp f

/-- The clause contributed by one filter (`src/db.rs` lines 388-397):
the parenthesized AND-conjunction of its components, or the
`hidden!=TRUE` substitution when there are none. -/
def filterClause (f : Filter) : String :=
  if (filterComponents f).isEmpty then "hidden!=TRUE"
  else "( " ++ (joinSep " AND " (filterComponents f) ++ " )")

/-- The fixed SELECT skeleton of `query_from_sub`. -/
def baseQuery : String :=
  "SELECT DISTINCT(e.content) FROM event e LEFT JOIN event_ref er ON e.id=er.event_id LEFT JOIN pubkey_ref pr ON e.id=pr.event_id "

/-- `query_from_sub` (`src/db.rs` lines 304-409): base skeleton, a
WHERE joining the per-filter clauses with OR when any exist, and the
ORDER BY suffix. -/
def query_from_sub (sub : Subscription) : String :=
  let filter_clauses := sub.filters.map filterClause
  let query :=
    if filter_clauses.isEmpty then baseQuery
    else baseQuery ++ (" WHERE " ++ joinSep " OR " filter_clauses)
  query ++ " ORDER BY created_at ASC"

/-- Value of one hex digit (only used on characters accepted by
`isAsciiHexDigitChar`). -/
def hexVal (c : Char) : Nat :=
  if c ≤ '9' then c.toNat - '0'.toNat
  else if c ≤ 'F' then c.toNat - 'A'.toNat + 10
  else c.toNat - 'a'.toNat + 10

/-- The byte blob denoted by the SQLite literal `x'<s>'`, as a number. -/
def hexDecode (s : String) : Nat := s.data.foldl (fun a c => 16 * a + hexVal c) 0

/-- One tuple of the FROM clause of the emitted query:
`event e LEFT JOIN event_ref er ON e.id=er.event_id LEFT JOIN pubkey_ref pr ON e.id=pr.event_id`.
`refEvent`/`refPubkey` are `none` when the LEFT JOIN produced NULLs. -/
structure JoinedRow where
  row : Row
  refEvent : Option Nat
  refPubkey : Option Nat
deriving DecidableEq, Repr

/-- All recognized fields of the filter are absent; by construction this
is exactly when `filterComponents` is empty. -/
def noFields (f : Filter) : Bool :=
  f.authors.isNone && f.kinds.isNone && f.ids.isNone && f.events.isNone &&
  f.pubkeys.isNone && f.since.isNone && f.«until».isNone

/-- SQLite semantics of the clause `filterClause f` evaluated on one
joined tuple: each `IN` list tests membership (an empty list is
unsatisfiable, and `IN` over a NULL join column is not satisfied),
`created_at > since` and `created_at < until` are strict, and the
`hidden!=TRUE` substitution keeps exactly the visible rows. -/
def filterSem (f : Filter) (j : JoinedRow) : Bool :=
  if noFields f then !j.row.hidden
  else
    (match f.authors with
     | none => true
     | some vs => ((vs.filter (fun v => is_hex v)).map hexDecode).contains j.row.author) &&
    (match f.kinds with
     | none => true
     | some ks => ks.contains j.row.kind) &&
    (match f.ids with
     | none => true
     | some vs => ((vs.filter (fun v => is_hex v)).map hexDecode).contains j.row.event_hash) &&
    (match f.events with
     | none => true
     | some vs => match j.refEvent with
       | none => false
       | some x => ((vs.filter (fun v => is_hex v)).map hexDecode).contains x) &&
    (match f.pubkeys with
     | none => true
     | some vs => match j.refPubkey with
       | none => false
       | some x => ((vs.filter (fun v => is_hex v)).map hexDecode).contains x) &&
    (match f.since with
     | none => true
     | some v => decide (v < j.row.created_at)) &&
    (match f.«until» with
     | none => true
     | some v => decide (j.row.created_at < v))

/-- SQLite semantics of the whole WHERE clause emitted by
`query_from_sub`: with no filters the WHERE is omitted (every joined
tuple qualifies); otherwise the per-filter clauses are OR-ed. -/
def subSem (sub : Subscription) (j : JoinedRow) : Bool :=
  if sub.filters.isEmpty then true
  else sub.filters.any (fun f => filterSem f j)

/-- An atom of the emitted query string: a fixed literal of the
planner's skeleton, a decimal rendering of a user integer, or a blob
literal `x'...'` of a user hex string.  Used to state the injection
safety of `query_from_sub`. -/
inductive QAtom where
  | fixed : String → QAtom
  | natLit : Nat → QAtom
  | intLit : Int → QAtom
  | blobLit : String → QAtom
deriving DecidableEq, Repr

def QAtom.render : QAtom → String
  | QAtom.fixed s => s
  | QAtom.natLit n => toString n
  | QAtom.intLit i => toString i
  | QAtom.blobLit v => "x'" ++ v ++ "'"

def renderAtoms : List QAtom → String
  | [] => ""
  | a :: l => a.render ++ renderAtoms l

/-- Atom-level counterpart of `joinSep`. -/
def joinAtoms (sep : String) : List (List QAtom) → List QAtom
  | [] => []
  | [x] => x
  | x :: y :: xs => x ++ (QAtom.fixed sep :: joinAtoms sep (y :: xs))

/-- Atom-level counterpart of `hexItems`. -/
def hexItemAtoms (vs : List String) : List (List QAtom) :=
  (vs.filter (fun v => is_hex v)).map (fun v => [QAtom.blobLit v])

/-- Atom-level counterpart of `inClause`. -/
def inClauseAtoms (pre : String) (items : List (List QAtom)) : List QAtom :=
  QAtom.fixed pre :: (joinAtoms ", " items ++ [QAtom.fixed ")"])

def authorsCompAtoms (f : Filter) : List (List QAtom) :=
  match f.authors with
  | some vs => [inClauseAtoms "author IN (" (hexItemAtoms vs)]
  | none => []

def kindsCompAtoms (f : Filter) : List (List QAtom) :=
  match f.kinds with
  | some ks => [inClauseAtoms "kind IN (" (ks.map (fun k => [QAtom.natLit k]))]
  | none => []

def idsCompAtoms (f : Filter) : List (List QAtom) :=
  match f.ids with
  | some vs => [inClauseAtoms "event_hash IN (" (hexItemAtoms vs)]
  | none => []

def eventsCompAtoms (f : Filter) : List (List QAtom) :=
  match f.events with
  | some vs => [inClauseAtoms "referenced_event IN (" (hexItemAtoms vs)]
  | none => []

def pubkeysCompAtoms (f : Filter) : List (List QAtom) :=
  match f.pubkeys with
  | some vs => [inClauseAtoms "referenced_pubkey IN (" (hexItemAtoms vs)]
  | none => []

def sinceCompAtoms (f : Filter) : List (List QAtom) :=
  match f.since with
  | some v => [[QAtom.fixed "created_at > ", QAtom.intLit v]]
  | none => []

def untilCompAtoms (f : Filter) : List (List QAtom) :=
  match f.«until» with
  | some v => [[QAtom.fixed "created_at < ", QAtom.intLit v]]
  | none => []

def filterComponentAtoms (f : Filter) : List (List QAtom) :=
  authorsCompAtoms f ++ kindsCompAtoms f ++ idsCompAtoms f ++ eventsCompAtoms f ++
    pubkeysCompAtoms f ++ sinceCompAtoms f ++ untilCompAtoms f

def filterClauseAtoms (f : Filter) : List QAtom :=
  if (filterComponentAtoms f).isEmpty then [QAtom.fixed "hidden!=TRUE"]
  else QAtom.fixed "( " :: (joinAtoms " AND " (filterComponentAtoms f) ++ [QAtom.fixed " )"])

/-- The whole emitted query, as a list of atoms. -/
def subAtoms (sub : Subscription) : List QAtom :=
  (if (sub.filters.map filterClauseAtoms).isEmpty then [QAtom.fixed baseQuery]
   else QAtom.fixed baseQuery :: QAtom.fixed " WHERE " ::
     joinAtoms " OR " (sub.filters.map filterClauseAtoms)) ++
  [QAtom.fixed " ORDER BY created_at ASC"]

/-- The closed whitelist of skeleton strings the planner may emit; none
of them depends on user input. -/
def fixedAtomStrings : List String :=
  [baseQuery, " WHERE ", " OR ", " AND ", "( ", " )", "hidden!=TRUE",
   "author IN (", "kind IN (", "event_hash IN (", "referenced_event IN (",
   "referenced_pubkey IN (", "created_at > ", "created_at < ", ")", ", ",
   " ORDER BY created_at ASC"]

/-- All hex-candidate user values of one filter. -/
def filterHexValues (f : Filter) : List String :=
  f.authors.getD [] ++ f.ids.getD [] ++ f.events.getD [] ++ f.pubkeys.getD []

/-- All hex-candidate user values of a subscription. -/
def subHexValues (sub : Subscription) : List String :=
  sub.filters.flatMap filterHexValues

/-- All user-supplied kinds of a subscription. -/
def subNatValues (sub : Subscription) : List Nat :=
  sub.filters.flatMap (fun f => f.kinds.getD [])

/-- All user-supplied timestamps of a subscription. -/
def subIntValues (sub : Subscription) : List Int :=
  sub.filters.flatMap (fun f => f.since.toList ++ f.«until».toList)

/-- A query atom is safe for a subscription: a whitelisted skeleton
string, a decimal of one of the subscription's integers, or a blob
literal of one of its hex-checked values. -/
def AtomOK (sub : Subscription) (a : QAtom) : Prop :=
  match a with
  | QAtom.fixed s => s ∈ fixedAtomStrings
  | QAtom.natLit n => n ∈ subNatValues sub
  | QAtom.intLit i => i ∈ subIntValues sub
  | QAtom.blobLit v => is_hex v = true ∧ v ∈ subHexValues sub

/-- The two error values `ClientConn::subscribe` can produce
(`src/error.rs` is not in the provided sources; the variants are named
in `src/conn.rs`). -/
inductive SubError where
  | SubIdMaxLengthError
  | SubMaxExceededError
deriving DecidableEq, Repr

/-- `MAX_SUBSCRIPTION_ID_LEN` (`src/conn.rs` line 13). -/
def MAX_SUBSCRIPTION_ID_LEN : Nat := 256

/-- Per-connection state (`src/conn.rs`).  The subscription map is
modelled as an association list with unique keys; the random
`client_id` (only used for logging) is omitted. -/
structure ClientConn where
  subscriptions : List (String × Subscription)
  max_subs : Nat
deriving DecidableEq, Repr

/-- `ClientConn::new` (`src/conn.rs` lines 33-40). -/
def ClientConn.new : ClientConn := ⟨[], 32⟩

def containsKey (m : List (String × Subscription)) (k : String) : Bool :=
  m.any (fun p => p.1 == k)

def removeKey (m : List (String × Subscription)) (k : String) :
    List (String × Subscription) :=
  m.filter (fun p => p.1 != k)

def lookupKey (m : List (String × Subscription)) (k : String) : Option Subscription :=
  (m.find? (fun p => p.1 == k)).map Prod.snd

/-- Keys of the subscription map are pairwise distinct (HashMap
semantics). -/
def NodupKeys (m : List (String × Subscription)) : Prop :=
  (m.map Prod.fst).Nodup

instance (m : List (String × Subscription)) : Decidable (NodupKeys m) := by
  unfold NodupKeys; infer_instance

/-- `ClientConn::subscribe` (`src/conn.rs` lines 60-91), with the state
returned explicitly (`self` is unchanged on error).  The id length is
the byte length of the identifier (Rust `String::len`). -/
def subscribe (c : ClientConn) (s : Subscription) : ClientConn × Except SubError Unit :=
  let subs_id := s.id
  let sub_id_len := subs_id.utf8ByteSize
  if sub_id_len > MAX_SUBSCRIPTION_ID_LEN then
    (c, Except.error SubError.SubIdMaxLengthError)
  else if containsKey c.subscriptions subs_id then
    ({ c with subscriptions := removeKey c.subscriptions subs_id ++ [(subs_id, s)] },
     Except.ok ())
  else if c.subscriptions.length ≥ c.max_subs then
    (c, Except.error SubError.SubMaxExceededError)
  else
    ({ c with subscriptions := c.subscriptions ++ [(subs_id, s)] }, Except.ok ())

/-- The body of the `db_writer` loop for one received event
(`src/db.rs` lines 164-185): invoke `write_event`; broadcast exactly
when the insert count is nonzero; on a store error (modelled by the
`storeError` flag, in which case the transaction rolled back) log and
continue with the store unchanged.  The returned flag records whether
the event was published on the broadcast hub. -/
def db_writer_step (now : Int) (s : Store) (e : Event) (storeError : Bool) :
    Store × Bool :=
  if storeError then (s, false)
  else
    let res := write_event now s e
    if res.2 == 0 then (res.1, false) else (res.1, true)

/-! ### Sample data used by witnesses and counterexamples -/

/-- Sample events used by witnesses. -/
def ev1 : Event := ⟨1, 10, 100, 0, [], [], "m1"⟩

def ev2 : Event := ⟨2, 10, 200, 0, [], [], "m2"⟩

/-- Sample rows for witnesses. -/
def row1 : Row := ⟨0, 1, 0, 100, 10, 0, false, ev1⟩

def rowHidden : Row := ⟨1, 2, 0, 50, 10, 0, true, ev2⟩

def jrow1 : JoinedRow := ⟨row1, none, none⟩

def jrowHidden : JoinedRow := ⟨rowHidden, none, none⟩

/-- The all-absent filter. -/
def fEmpty : Filter := ⟨none, none, none, none, none, none, none⟩

def fSinceUntil : Filter := ⟨none, none, none, none, none, some 5, some 5⟩

/-- A filter whose only present field is `authors`, with every supplied
value failing the hex check. -/
def fAllInvalid : Filter := ⟨none, some ["not-hex!!"], none, none, none, none, none⟩

/-- The store after ingesting `ev1` into the empty store. -/
def sInOrder : Store := (write_event 0 Store.empty ev1).1

/-- A sample subscription exercising the planner. -/
def subSample : Subscription :=
  ⟨"s", [⟨none, some ["ab", "zz"], some [1], none, none, some 5, none⟩]⟩

/-! ### Helper lemmas for the subscription map -/

theorem containsKey_eq_false_iff (m : List (String × Subscription)) (k : String) :
    containsKey m k = false ↔ ∀ p ∈ m, (p.1 == k) = false := by
  simp [containsKey, List.any_eq_false]

theorem removeKey_keys_ne (m : List (String × Subscription)) (k : String) :
    ∀ p ∈ removeKey m k, (p.1 == k) = false := by
  intro p hp
  have := List.of_mem_filter hp
  simpa [bne] using this

theorem removeKey_eq_self (m : List (String × Subscription)) (k : String)
    (h : ∀ p ∈ m, (p.1 == k) = false) : removeKey m k = m := by
  induction m with
  | nil => rfl
  | cons p m ih =>
    have hp := h p (by simp)
    have hrest := ih (fun q hq => h q (by simp [hq]))
    simp [removeKey, List.filter_cons, bne, hp] at *
    simpa [removeKey, bne] using hrest

theorem removeKey_length (m : List (String × Subscription)) (k : String)
    (hnd : NodupKeys m) (hc : containsKey m k = true) :
    (removeKey m k).length + 1 = m.length := by
  induction m with
  | nil => simp [containsKey] at hc
  | cons p m ih =>
    have hcons : p.1 ∉ m.map Prod.fst ∧ (m.map Prod.fst).Nodup :=
      List.nodup_cons.mp (hnd : (p.1 :: m.map Prod.fst).Nodup)
    have hnd' : NodupKeys m := hcons.2
    by_cases hk : (p.1 == k) = true
    · have hpk : p.1 = k := by simpa using hk
      have hnotin : ∀ q ∈ m, (q.1 == k) = false := by
        intro q hq
        simp only [beq_eq_false_iff_ne, ne_eq]
        intro heq
        exact hcons.1 (by
          rw [hpk, ← heq]
          exact List.mem_map_of_mem Prod.fst hq)
      have hstep : removeKey (p :: m) k = removeKey m k := by
        simp [removeKey, List.filter_cons, bne, hk]
      rw [hstep, removeKey_eq_self m k hnotin]
      simp
    · have hk' : (p.1 == k) = false := by simpa using hk
      have hc' : containsKey m k = true := by
        simpa [containsKey, List.any_cons, hk'] using hc
      have hstep : removeKey (p :: m) k = p :: removeKey m k := by
        simp [removeKey, List.filter_cons, bne, hk']
      rw [hstep]
      simp only [List.length_cons]
      rw [← ih hnd' hc']

theorem lookupKey_append_last (l : List (String × Subscription)) (k : String)
    (s : Subscription) (h : ∀ p ∈ l, (p.1 == k) = false) :
    lookupKey (l ++ [(k, s)]) k = some s := by
  induction l with
  | nil => simp [lookupKey, List.find?]
  | cons p l ih =>
    have hp := h p (by simp)
    have := ih (fun q hq => h q (by simp [hq]))
    simpa [lookupKey, List.find?_cons, hp] using this

/-! ### C4, C5, C7, C9 -/

/-- C4: ingesting an event whose hash is already stored reports
Duplicate (insert count 0) and leaves the whole store state unchanged:
no event row, no reference rows, no hiding updates. -/
theorem write_event_duplicate_noop (now : Int) (s : Store) (e : Event)
    (h : hasEvent s e.id = true) : write_event now s e = (s, 0) := by
  simp [write_event, h]

theorem write_event_duplicate_noop_witness :
    hasEvent (write_event 0 Store.empty ev1).1 ev1.id = true ∧
    write_event 7 (write_event 0 Store.empty ev1).1 ev1 =
      ((write_event 0 Store.empty ev1).1, 0) :=
  ⟨by decide, write_event_duplicate_noop 7 (write_event 0 Store.empty ev1).1 ev1 (by decide)⟩

/-- C7: the writer loop publishes an event on the broadcast hub exactly
when `write_event` reports it newly persisted (nonzero insert count,
i.e. the hash was not already stored); on Duplicate or on a store error
nothing is broadcast and the loop continues with its state. -/
theorem db_writer_broadcast_iff_inserted (now : Int) (s : Store) (e : Event) :
    (db_writer_step now s e false).2 = !hasEvent s e.id ∧
    db_writer_step now s e true = (s, false) := by
  refine ⟨?_, rfl⟩
  cases h : hasEvent s e.id <;> simp [db_writer_step, write_event, h]

/-- C9: whenever `subscribe` returns an error, the connection state is
unchanged: nothing is added, removed or replaced — in particular an
over-long subscription id never replaces an existing subscription. -/
theorem subscribe_error_state_unchanged (c : ClientConn) (s : Subscription)
    (e : SubError) (h : (subscribe c s).2 = Except.error e) :
    (subscribe c s).1 = c := by
  by_cases h1 : s.id.utf8ByteSize > MAX_SUBSCRIPTION_ID_LEN
  · simp [subscribe, h1]
  · by_cases h2 : containsKey c.subscriptions s.id = true
    · exfalso
      simp [subscribe, h1, h2] at h
    · by_cases h3 : c.subscriptions.length ≥ c.max_subs
      · simp [subscribe, h1, h2, h3]
      · exfalso
        simp [subscribe, h1, h2, h3] at h

theorem subscribe_error_state_unchanged_witness :
    (subscribe ⟨[("a", ⟨"a", []⟩)], 0⟩ ⟨"b", []⟩).2 =
      Except.error SubError.SubMaxExceededError ∧
    (subscribe ⟨[("a", ⟨"a", []⟩)], 0⟩ ⟨"b", []⟩).1 = ⟨[("a", ⟨"a", []⟩)], 0⟩ :=
  ⟨by rfl,
   subscribe_error_state_unchanged ⟨[("a", ⟨"a", []⟩)], 0⟩ ⟨"b", []⟩
     SubError.SubMaxExceededError (by rfl)⟩

/-- C5: `subscribe` rejects with `SubIdMaxLengthError` exactly when the
id exceeds 256 bytes; re-subscribing an existing id replaces it and
preserves the count (even at capacity); a fresh id is rejected with
`SubMaxExceededError` exactly when the connection is full (so with the
default `max_subs = 32` of `ClientConn::new` the 33rd distinct
subscription is rejected), and is inserted otherwise. -/
theorem subscribe_spec (c : ClientConn) (s : Subscription)
    (hnd : NodupKeys c.subscriptions)
    (hcap : c.subscriptions.length ≤ c.max_subs) :
    ((subscribe c s).2 = Except.error SubError.SubIdMaxLengthError ↔
       s.id.utf8ByteSize > 256) ∧
    (s.id.utf8ByteSize ≤ 256 → containsKey c.subscriptions s.id = true →
       (subscribe c s).2 = Except.ok () ∧
       (subscribe c s).1.subscriptions.length = c.subscriptions.length ∧
       lookupKey (subscribe c s).1.subscriptions s.id = some s) ∧
    (s.id.utf8ByteSize ≤ 256 → containsKey c.subscriptions s.id = false →
       (((subscribe c s).2 = Except.error SubError.SubMaxExceededError ↔
          c.subscriptions.length = c.max_subs) ∧
        (c.subscriptions.length < c.max_subs →
          (subscribe c s).2 = Except.ok () ∧
          (subscribe c s).1.subscriptions.length = c.subscriptions.length + 1 ∧
          lookupKey (subscribe c s).1.subscriptions s.id = some s))) ∧
    ClientConn.new.max_subs = 32 := by
  refine ⟨?_, ?_, ?_, rfl⟩
  · by_cases h1 : 256 < s.id.utf8ByteSize
    · simp [subscribe, MAX_SUBSCRIPTION_ID_LEN, h1]
    · by_cases h2 : containsKey c.subscriptions s.id = true
      · simp [subscribe, MAX_SUBSCRIPTION_ID_LEN, h1, h2]
      · by_cases h3 : c.max_subs ≤ c.subscriptions.length <;>
          simp [subscribe, MAX_SUBSCRIPTION_ID_LEN, h1, h2, h3]
  · intro hlen h2
    have h1 : ¬ 256 < s.id.utf8ByteSize := by omega
    have hrk := removeKey_length c.subscriptions s.id hnd h2
    refine ⟨by simp [subscribe, MAX_SUBSCRIPTION_ID_LEN, h1, h2], ?_, ?_⟩
    · simp only [subscribe, MAX_SUBSCRIPTION_ID_LEN]
      rw [if_neg h1, if_pos h2]
      simp only [List.length_append, List.length_cons, List.length_nil]
      omega
    · simp only [subscribe, MAX_SUBSCRIPTION_ID_LEN]
      rw [if_neg h1, if_pos h2]
      exact lookupKey_append_last _ _ _ (removeKey_keys_ne c.subscriptions s.id)
  · intro hlen h2
    have h1 : ¬ 256 < s.id.utf8ByteSize := by omega
    have h2' : ¬ containsKey c.subscriptions s.id = true := by simp [h2]
    constructor
    · by_cases h3 : c.max_subs ≤ c.subscriptions.length
      · have heq : c.subscriptions.length = c.max_subs := le_antisymm hcap h3
        simp [subscribe, MAX_SUBSCRIPTION_ID_LEN, h1, h2', h3, heq]
      · have hne : ¬ c.subscriptions.length = c.max_subs := by omega
        simp [subscribe, MAX_SUBSCRIPTION_ID_LEN, h1, h2', h3, hne]
    · intro h4
      have h3 : ¬ c.max_subs ≤ c.subscriptions.length := by omega
      refine ⟨by simp [subscribe, MAX_SUBSCRIPTION_ID_LEN, h1, h2', h3], ?_, ?_⟩
      · simp [subscribe, MAX_SUBSCRIPTION_ID_LEN, h1, h2', h3]
      · simp only [subscribe, MAX_SUBSCRIPTION_ID_LEN]
        rw [if_neg h1, if_neg h2', if_neg h3]
        refine lookupKey_append_last _ _ _ ?_
        exact (containsKey_eq_false_iff c.subscriptions s.id).mp h2

theorem subscribe_spec_witness :
    (NodupKeys ([("a", ⟨"a", []⟩)] : List (String × Subscription)) ∧
       ([("a", ⟨"a", []⟩)] : List (String × Subscription)).length ≤ 1) ∧
    ((subscribe ⟨[("a", ⟨"a", []⟩)], 1⟩ ⟨"b", []⟩).2 =
        Except.error SubError.SubIdMaxLengthError ↔
      ("b" : String).utf8ByteSize > 256) :=
  ⟨⟨by decide, by decide⟩,
   (subscribe_spec ⟨[("a", ⟨"a", []⟩)], 1⟩ ⟨"b", []⟩ (by decide) (by decide)).1⟩

/-! ### Helper lemmas for the query planner -/

theorem head?_of_append (pre x : String) (c : Char)
    (h : pre.data.head? = some c) : (pre ++ x).data.head? = some c := by
  rw [String.data_append]
  cases hp : pre.data with
  | nil => simp [hp] at h
  | cons a l =>
    rw [hp] at h
    simp at h
    simp [h]

theorem append_ne_hiddenClause (pre x : String) (c : Char)
    (h : pre.data.head? = some c) (hc : c ≠ 'h') :
    pre ++ x ≠ "hidden!=TRUE" := by
  intro he
  have h1 : (pre ++ x).data.head? = some c := head?_of_append pre x c h
  rw [he] at h1
  have h2 : ("hidden!=TRUE" : String).data.head? = some 'h' := rfl
  rw [h2] at h1
  exact hc (Option.some.inj h1).symm

theorem inClause_ne_hidden (pre : String) (items : List String) (c : Char)
    (h : pre.data.head? = some c) (hc : c ≠ 'h') :
    inClause pre items ≠ "hidden!=TRUE" :=
  append_ne_hiddenClause pre _ c h hc

theorem component_ne_hidden (f : Filter) :
    ∀ comp ∈ filterComponents f, comp ≠ "hidden!=TRUE" := by
  intro comp hc
  simp only [filterComponents, List.append_assoc, List.mem_append] at hc
  rcases hc with h | h | h | h | h | h | h
  · rcases ha : f.authors with _ | vs <;> rw [authorsComp, ha] at h <;> simp at h
    rw [h]
    exact inClause_ne_hidden _ _ 'a' rfl (by decide)
  · rcases ha : f.kinds with _ | ks <;> rw [kindsComp, ha] at h <;> simp at h
    rw [h]
    exact inClause_ne_hidden _ _ 'k' rfl (by decide)
  · rcases ha : f.ids with _ | vs <;> rw [idsComp, ha] at h <;> simp at h
    rw [h]
    exact inClause_ne_hidden _ _ 'e' rfl (by decide)
  · rcases ha : f.events with _ | vs <;> rw [eventsComp, ha] at h <;> simp at h
    rw [h]
    exact inClause_ne_hidden _ _ 'r' rfl (by decide)
  · rcases ha : f.pubkeys with _ | vs <;> rw [pubkeysComp, ha] at h <;> simp at h
    rw [h]
    exact inClause_ne_hidden _ _ 'r' rfl (by decide)
  · rcases ha : f.since with _ | v <;> rw [sinceComp, ha] at h <;> simp at h
    rw [h]
    exact append_ne_hiddenClause _ _ 'c' rfl (by decide)
  · rcases ha : f.«until» with _ | v <;> rw [untilComp, ha] at h <;> simp at h
    rw [h]
    exact append_ne_hiddenClause _ _ 'c' rfl (by decide)

theorem filterComponents_eq_nil (f : Filter) :
    filterComponents f = [] ↔ noFields f = true := by
  rcases f with ⟨i, a, k, ev, p, si, un⟩
  cases i <;> cases a <;> cases k <;> cases ev <;> cases p <;> cases si <;> cases un <;>
    simp [filterComponents, authorsComp, kindsComp, idsComp, eventsComp, pubkeysComp,
      sinceComp, untilComp, noFields]

/-! ### C6, C8, C10, C3 -/

/-- C6: a filter with no recognized field present gets the single
substituted clause `hidden!=TRUE` (so every joined tuple it accepts has
`hidden = false`); a filter with at least one component gets the
parenthesized conjunction of its components, and no hidden-exclusion
clause is among them. -/
theorem planner_hidden_substitution (f : Filter) :
    (noFields f = true →
       filterClause f = "hidden!=TRUE" ∧
       ∀ j : JoinedRow, filterSem f j = true → j.row.hidden = false) ∧
    (noFields f = false →
       filterComponents f ≠ [] ∧
       filterClause f = "( " ++ (joinSep " AND " (filterComponents f) ++ " )") ∧
       "hidden!=TRUE" ∉ filterComponents f) := by
  constructor
  · intro h
    have hnil : filterComponents f = [] := (filterComponents_eq_nil f).mpr h
    refine ⟨by simp [filterClause, hnil], ?_⟩
    intro j hsem
    simp [filterSem, h] at hsem
    simpa using hsem
  · intro h
    have hne : filterComponents f ≠ [] := by
      intro hnil
      exact absurd ((filterComponents_eq_nil f).mp hnil) (by simp [h])
    have hemp : (filterComponents f).isEmpty = false := by
      cases hcc : filterComponents f with
      | nil => exact absurd hcc hne
      | cons x l => rfl
    refine ⟨hne, by simp [filterClause, hemp], ?_⟩
    intro hmem
    exact component_ne_hidden f _ hmem rfl

theorem planner_hidden_substitution_witness :
    noFields fEmpty = true ∧
    filterClause fEmpty = "hidden!=TRUE" ∧
    filterSem fEmpty jrow1 = true ∧
    jrow1.row.hidden = false :=
  ⟨rfl, ((planner_hidden_substitution fEmpty).1 rfl).1, rfl,
   ((planner_hidden_substitution fEmpty).1 rfl).2 jrow1 rfl⟩

/-- C8: the planner renders `since`/`until` as the strict bounds
`created_at > v` and `created_at < v`; consequently a filter with
`since = until` is unsatisfiable and its query returns no events. -/
theorem since_until_exclusive (f : Filter) (v : Int) :
    (f.since = some v → ("created_at > " ++ toString v) ∈ filterComponents f) ∧
    (f.«until» = some v → ("created_at < " ++ toString v) ∈ filterComponents f) ∧
    (f.since = some v → f.«until» = some v →
       ∀ j : JoinedRow, filterSem f j = false) := by
  refine ⟨?_, ?_, ?_⟩
  · intro h
    have hm : ("created_at > " ++ toString v) ∈ sinceComp f := by
      simp [sinceComp, h]
    simp only [filterComponents, List.append_assoc]
    exact List.mem_append_right _ (List.mem_append_right _ (List.mem_append_right _
      (List.mem_append_right _ (List.mem_append_right _ (List.mem_append_left _ hm)))))
  · intro h
    have hm : ("created_at < " ++ toString v) ∈ untilComp f := by
      simp [untilComp, h]
    simp only [filterComponents, List.append_assoc]
    exact List.mem_append_right _ (List.mem_append_right _ (List.mem_append_right _
      (List.mem_append_right _ (List.mem_append_right _ (List.mem_append_right _ hm)))))
  · intro hs hu j
    have hnf : noFields f = false := by simp [noFields, hs]
    by_cases hvc : v < j.row.created_at
    · have hnc : ¬ j.row.created_at < v := by omega
      simp [filterSem, hnf, hs, hu, hnc]
    · simp [filterSem, hnf, hs, hu, hvc]

theorem since_until_exclusive_witness :
    ("created_at > " ++ toString (5 : Int)) ∈ filterComponents fSinceUntil ∧
    filterSem fSinceUntil jrow1 = false :=
  ⟨(since_until_exclusive fSinceUntil 5).1 rfl,
   (since_until_exclusive fSinceUntil 5).2.2 rfl rfl jrow1⟩

/-- C10: a subscription with an empty filter list produces a query with
no WHERE clause at all, so every joined tuple (hidden or not) satisfies
the emitted query's predicate. -/
theorem empty_filters_no_where (sub : Subscription) (h : sub.filters = []) :
    query_from_sub sub = baseQuery ++ " ORDER BY created_at ASC" ∧
    ∀ j : JoinedRow, subSem sub j = true := by
  constructor
  · simp [query_from_sub, h]
  · intro j
    simp [subSem, h]

theorem empty_filters_no_where_witness :
    query_from_sub ⟨"s", []⟩ = baseQuery ++ " ORDER BY created_at ASC" ∧
    subSem ⟨"s", []⟩ jrowHidden = true :=
  ⟨(empty_filters_no_where ⟨"s", []⟩ rfl).1,
   (empty_filters_no_where ⟨"s", []⟩ rfl).2 jrowHidden⟩

/-- C3 counterexample: when every author value fails the hex check the
planner does NOT skip the clause — it emits `author IN ()` — so the
filter does not degenerate and the `hidden!=TRUE` substitution is not
triggered. -/
theorem authors_all_invalid_counterexample :
    filterComponents fAllInvalid = ["author IN ()"] ∧
    filterClause fAllInvalid ≠ "hidden!=TRUE" ∧
    query_from_sub ⟨"s", [fAllInvalid]⟩ =
      "SELECT DISTINCT(e.content) FROM event e LEFT JOIN event_ref er ON e.id=er.event_id LEFT JOIN pubkey_ref pr ON e.id=pr.event_id  WHERE ( author IN () ) ORDER BY created_at ASC" :=
  ⟨rfl, by decide, rfl⟩

/-- C3 amended: with `authors` present and every value failing the hex
check (and no other field present), the planner keeps the clause as the
empty list `author IN ()` — well-formed in SQLite and unsatisfiable —
rather than skipping it, so no `hidden!=TRUE` substitution occurs and
the filter matches nothing. -/
theorem authors_all_invalid_empty_in (f : Filter) (vs : List String)
    (ha : f.authors = some vs) (hinv : ∀ v ∈ vs, is_hex v = false)
    (hids : f.ids = none) (hk : f.kinds = none) (hev : f.events = none)
    (hp : f.pubkeys = none) (hs : f.since = none) (hu : f.«until» = none) :
    filterComponents f = ["author IN ()"] ∧
    filterClause f = "( author IN () )" ∧
    ∀ j : JoinedRow, filterSem f j = false := by
  have hfil : vs.filter (fun v => is_hex v) = [] :=
    List.filter_eq_nil_iff.mpr (fun v hv => by simp [hinv v hv])
  have hhex : hexItems vs = [] := by simp [hexItems, hfil]
  have hcomp : filterComponents f = ["author IN ()"] := by
    simp only [filterComponents, authorsComp, kindsComp, idsComp, eventsComp,
      pubkeysComp, sinceComp, untilComp, ha, hids, hk, hev, hp, hs, hu, hhex]
    rfl
  refine ⟨hcomp, ?_, ?_⟩
  · simp only [filterClause, hcomp]
    rfl
  · intro j
    have hnf : noFields f = false := by simp [noFields, ha]
    simp [filterSem, hnf, ha, hfil]

theorem authors_all_invalid_empty_in_witness :
    is_hex "not-hex!!" = false ∧
    filterComponents fAllInvalid = ["author IN ()"] ∧
    filterClause fAllInvalid = "( author IN () )" ∧
    filterSem fAllInvalid jrow1 = false :=
  ⟨by decide,
   (authors_all_invalid_empty_in fAllInvalid ["not-hex!!"] rfl
       (by intro v hv; simp at hv; rw [hv]; decide)
       rfl rfl rfl rfl rfl rfl).1,
   (authors_all_invalid_empty_in fAllInvalid ["not-hex!!"] rfl
       (by intro v hv; simp at hv; rw [hv]; decide)
       rfl rfl rfl rfl rfl rfl).2.1,
   (authors_all_invalid_empty_in fAllInvalid ["not-hex!!"] rfl
       (by intro v hv; simp at hv; rw [hv]; decide)
       rfl rfl rfl rfl rfl rfl).2.2 jrow1⟩

/-! ### Helper lemmas for the replaceable-event invariant (C1) -/

theorem hideStep_author (evId k a : Nat) (t : Int) (r : Row) :
    (hideStep evId k a t r).author = r.author := by
  unfold hideStep; split <;> rfl

theorem hideStep_kind (evId k a : Nat) (t : Int) (r : Row) :
    (hideStep evId k a t r).kind = r.kind := by
  unfold hideStep; split <;> rfl

theorem hideStep_created_at (evId k a : Nat) (t : Int) (r : Row) :
    (hideStep evId k a t r).created_at = r.created_at := by
  unfold hideStep; split <;> rfl

theorem hideStep_self (evId k a : Nat) (t : Int) (r : Row) (h : r.id = evId) :
    hideStep evId k a t r = r := by
  unfold hideStep
  rw [if_neg]
  intro hcond
  exact hcond.1 h

theorem hideStep_hidden_of_match (evId k a : Nat) (t : Int) (r : Row)
    (hid : r.id ≠ evId) (hk : r.kind = k) (ha : r.author = a)
    (ht : r.created_at ≤ t) : (hideStep evId k a t r).hidden = true := by
  unfold hideStep
  split
  · rfl
  · next h =>
    by_cases hh : r.hidden = true
    · exact hh
    · exact absurd ⟨hid, hk, ha, ht, hh⟩ h

theorem hideStep_eq_self_of_ne (evId k a : Nat) (t : Int) (r : Row)
    (h : ¬(r.kind = k ∧ r.author = a)) : hideStep evId k a t r = r := by
  unfold hideStep
  rw [if_neg]
  intro hcond
  exact h ⟨hcond.2.1, hcond.2.2.1⟩

theorem hideOlder_append_new (rows : List Row) (nr : Row) (k : Nat) :
    hideOlder (rows ++ [nr]) nr.id k nr.author nr.created_at =
      rows.map (hideStep nr.id k nr.author nr.created_at) ++ [nr] := by
  unfold hideOlder
  rw [List.map_append]
  simp [hideStep_self]

theorem filter_map_eq_filter (l : List Row) (f : Row → Row) (p : Row → Bool)
    (h1 : ∀ r ∈ l, p (f r) = p r) (h2 : ∀ r ∈ l, p r = true → f r = r) :
    (l.map f).filter p = l.filter p := by
  induction l with
  | nil => rfl
  | cons r l ih =>
    have hr1 := h1 r (by simp)
    have ih' := ih (fun x hx => h1 x (by simp [hx])) (fun x hx => h2 x (by simp [hx]))
    cases hp : p r with
    | false =>
      have hpf : p (f r) = false := by rw [hr1, hp]
      simp [List.filter_cons, hp, hpf, ih']
    | true =>
      have hpf : p (f r) = true := by rw [hr1, hp]
      simp [List.filter_cons, hp, hpf, h2 r (by simp) hp, ih']

theorem hideOlder_invariant (rows : List Row) (nr : Row) (k : Nat)
    (hknr : nr.kind = k) (hnrh : nr.hidden = false)
    (hid : ∀ r ∈ rows, r.id ≠ nr.id)
    (hmax : ∀ r ∈ rows, r.author = nr.author → r.kind = k →
       r.created_at ≤ nr.created_at)
    (hpre : ∀ r ∈ rows, (r.kind = 0 ∨ r.kind = 3) →
       ReplaceableOK rows r.author r.kind) :
    ∀ r0 ∈ hideOlder (rows ++ [nr]) nr.id k nr.author nr.created_at,
      (r0.kind = 0 ∨ r0.kind = 3) →
      ReplaceableOK (hideOlder (rows ++ [nr]) nr.id k nr.author nr.created_at)
        r0.author r0.kind := by
  intro r0 hr0 hk0
  rw [hideOlder_append_new] at hr0 ⊢
  set f := hideStep nr.id k nr.author nr.created_at with hf
  have hfa : ∀ r, (f r).author = r.author := fun r => hideStep_author _ _ _ _ r
  have hfk : ∀ r, (f r).kind = r.kind := fun r => hideStep_kind _ _ _ _ r
  have hfc : ∀ r, (f r).created_at = r.created_at :=
    fun r => hideStep_created_at _ _ _ _ r
  have hfhid : ∀ r ∈ rows, r.author = nr.author → r.kind = k →
      (f r).hidden = true := by
    intro r hr hra hrk
    exact hideStep_hidden_of_match _ _ _ _ r (hid r hr) hrk hra (hmax r hr hra hrk)
  by_cases hcase : r0.author = nr.author ∧ r0.kind = k
  · -- the pair being updated: the new row is the unique visible one
    obtain ⟨ha0, hk0'⟩ := hcase
    rw [ha0, hk0']
    have hmapnil : (rows.map f).filter (visMatch nr.author k) = [] := by
      apply List.filter_eq_nil_iff.mpr
      intro x hx
      obtain ⟨r, hr, hfr⟩ := List.mem_map.mp hx
      intro hdec
      obtain ⟨hxa, hxk, hxh⟩ := of_decide_eq_true hdec
      subst hfr
      by_cases hmt : r.author = nr.author ∧ r.kind = k
      · have hh := hfhid r hr hmt.1 hmt.2
        rw [hh] at hxh
        exact Bool.noConfusion hxh
      · have heq : f r = r := hideStep_eq_self_of_ne _ _ _ _ r
          (fun hc => hmt ⟨hc.2, hc.1⟩)
        rw [heq] at hxa hxk
        exact hmt ⟨hxa, hxk⟩
    constructor
    · unfold visCount
      rw [List.filter_append, hmapnil]
      have hnrm : visMatch nr.author k nr = true :=
        decide_eq_true ⟨rfl, hknr, hnrh⟩
      simp [List.filter_cons, hnrm]
    · intro r1 hr1 hq1 r2 hr2 hq2
      obtain ⟨hq1a, hq1k, hq1h⟩ := hq1
      have hr1nr : r1 = nr := by
        rcases List.mem_append.mp hr1 with hmem | hmem
        · exfalso
          obtain ⟨r, hr, hfr⟩ := List.mem_map.mp hmem
          subst hfr
          by_cases hmt : r.author = nr.author ∧ r.kind = k
          · have hh := hfhid r hr hmt.1 hmt.2
            rw [hh] at hq1h
            exact Bool.noConfusion hq1h
          · have heq : f r = r := hideStep_eq_self_of_ne _ _ _ _ r
              (fun hc => hmt ⟨hc.2, hc.1⟩)
            rw [heq] at hq1a hq1k
            exact hmt ⟨hq1a, hq1k⟩
        · simpa using hmem
      obtain ⟨hq2a, hq2k⟩ := hq2
      rw [hr1nr]
      rcases List.mem_append.mp hr2 with hmem | hmem
      · obtain ⟨r, hr, hfr⟩ := List.mem_map.mp hmem
        subst hfr
        rw [hfa r] at hq2a
        rw [hfk r] at hq2k
        rw [hfc r]
        exact hmax r hr hq2a hq2k
      · have hr2nr : r2 = nr := by simpa using hmem
        rw [hr2nr]
  · -- an unrelated pair: the update and the new row do not touch it
    have hnrm : visMatch r0.author r0.kind nr = false := by
      apply decide_eq_false
      rintro ⟨h1, h2, _⟩
      exact hcase ⟨h1.symm, by rw [← h2, hknr]⟩
    have hnrpair : ¬(nr.author = r0.author ∧ nr.kind = r0.kind) := by
      rintro ⟨h1, h2⟩
      exact hcase ⟨h1.symm, by rw [← h2, hknr]⟩
    have hfix : ∀ r ∈ rows, r.author = r0.author → r.kind = r0.kind → f r = r := by
      intro r hr hra hrk
      apply hideStep_eq_self_of_ne
      rintro ⟨hkk, haa⟩
      exact hcase ⟨by rw [← hra]; exact haa, by rw [← hrk]; exact hkk⟩
    have hr0rows : ∃ rr ∈ rows, rr.author = r0.author ∧ rr.kind = r0.kind := by
      rcases List.mem_append.mp hr0 with hmem | hmem
      · obtain ⟨r, hr, hfr⟩ := List.mem_map.mp hmem
        exact ⟨r, hr, by rw [← hfr, hfa], by rw [← hfr, hfk]⟩
      · exfalso
        have hnreq : r0 = nr := by simpa using hmem
        exact hnrpair ⟨by rw [hnreq], by rw [hnreq]⟩
    obtain ⟨rr, hrr, hrra, hrrk⟩ := hr0rows
    have hOK : ReplaceableOK rows r0.author r0.kind := by
      have := hpre rr hrr (by rw [hrrk]; exact hk0)
      rwa [hrra, hrrk] at this
    have hmemrows : ∀ x, x ∈ rows.map f ++ [nr] →
        x.author = r0.author → x.kind = r0.kind → x ∈ rows := by
      intro x hx hxa hxk
      rcases List.mem_append.mp hx with hmem | hmem
      · obtain ⟨r, hr, hfr⟩ := List.mem_map.mp hmem
        subst hfr
        rw [hfa r] at hxa
        rw [hfk r] at hxk
        rw [hfix r hr hxa hxk]
        exact hr
      · exfalso
        have hnreq : x = nr := by simpa using hmem
        rw [hnreq] at hxa hxk
        exact hnrpair ⟨hxa, hxk⟩
    constructor
    · unfold visCount
      rw [List.filter_append]
      have hmapfil : (rows.map f).filter (visMatch r0.author r0.kind) =
          rows.filter (visMatch r0.author r0.kind) := by
        apply filter_map_eq_filter
        · intro r hr
          by_cases hm : r.author = r0.author ∧ r.kind = r0.kind
          · rw [hfix r hr hm.1 hm.2]
          · have hl : visMatch r0.author r0.kind (f r) = false := by
              apply decide_eq_false
              rintro ⟨ha', hk', _⟩
              rw [hfa r] at ha'
              rw [hfk r] at hk'
              exact hm ⟨ha', hk'⟩
            have hrf : visMatch r0.author r0.kind r = false := by
              apply decide_eq_false
              rintro ⟨ha', hk', _⟩
              exact hm ⟨ha', hk'⟩
            rw [hl, hrf]
        · intro r hr hp
          obtain ⟨ha', hk', _⟩ := of_decide_eq_true hp
          exact hfix r hr ha' hk'
      rw [hmapfil]
      simp [List.filter_cons, hnrm]
      exact hOK.1
    · intro r1 hr1 hq1 r2 hr2 hq2
      obtain ⟨hq1a, hq1k, hq1h⟩ := hq1
      obtain ⟨hq2a, hq2k⟩ := hq2
      exact hOK.2 r1 (hmemrows r1 hr1 hq1a hq1k) ⟨hq1a, hq1k, hq1h⟩
        r2 (hmemrows r2 hr2 hq2a hq2k) ⟨hq2a, hq2k⟩

theorem write_event_rows_kind0 (now : Int) (s : Store) (e : Event)
    (hdup : hasEvent s e.id = false) (hk : e.kind = 0) :
    (write_event now s e).1.rows =
      hideOlder (s.rows ++ [⟨s.nextId, e.id, now, e.created_at, e.pubkey, e.kind, false, e⟩])
        s.nextId 0 e.pubkey e.created_at := by
  simp [write_event, hdup, hk]

theorem write_event_rows_kind3 (now : Int) (s : Store) (e : Event)
    (hdup : hasEvent s e.id = false) (hk : e.kind = 3) :
    (write_event now s e).1.rows =
      hideOlder (s.rows ++ [⟨s.nextId, e.id, now, e.created_at, e.pubkey, e.kind, false, e⟩])
        s.nextId 3 e.pubkey e.created_at := by
  simp [write_event, hdup, hk]

/-! ### C1 -/

/-- C1 counterexample: two accepted kind-0 events from the same author
arriving out of `created_at` order (200 then 100) leave TWO visible
rows for the pair `(author 10, kind 0)`, so the replaceable-event
invariant does not hold after the second accepted write. -/
theorem replaceable_out_of_order_counterexample :
    (write_event 0 Store.empty ev2).2 = 1 ∧
    (write_event 1 (write_event 0 Store.empty ev2).1 ev1).2 = 1 ∧
    visCount (write_event 1 (write_event 0 Store.empty ev2).1 ev1).1.rows 10 0 = 2 ∧
    ¬ ReplaceableInvariant (write_event 1 (write_event 0 Store.empty ev2).1 ev1).1 := by
  exact ⟨rfl, rfl, rfl, by decide⟩

/-- C1 amended: after `write_event` of a kind-0/3 event `e`, the
replaceable-event invariant holds provided it held before and `e` does
not arrive out of order — i.e. `e.created_at` is at least the
`created_at` of every stored event with the same `(author, kind)`.
(The counterexample shows the out-of-order case genuinely fails: the
UPDATE only hides strictly older rows and never hides the new row.) -/
theorem write_event_replaceable_in_order (now : Int) (s : Store) (e : Event)
    (hwf : StoreWF s) (hinv : ReplaceableInvariant s)
    (hkind : e.kind = 0 ∨ e.kind = 3)
    (horder : ∀ r ∈ s.rows, r.author = e.pubkey → r.kind = e.kind →
       r.created_at ≤ e.created_at) :
    ReplaceableInvariant (write_event now s e).1 := by
  by_cases hdup : hasEvent s e.id = true
  · simpa [write_event, hdup] using hinv
  · have hdup' : hasEvent s e.id = false := by simpa using hdup
    rcases hkind with hk | hk
    · have hre := write_event_rows_kind0 now s e hdup' hk
      unfold ReplaceableInvariant
      rw [hre]
      apply hideOlder_invariant
      · exact hk
      · rfl
      · intro r hr
        exact Nat.ne_of_lt (hwf r hr)
      · intro r hr hra hrk
        exact horder r hr hra (hrk.trans hk.symm)
      · exact hinv
    · have hre := write_event_rows_kind3 now s e hdup' hk
      unfold ReplaceableInvariant
      rw [hre]
      apply hideOlder_invariant
      · exact hk
      · rfl
      · intro r hr
        exact Nat.ne_of_lt (hwf r hr)
      · intro r hr hra hrk
        exact horder r hr hra (hrk.trans hk.symm)
      · exact hinv

theorem write_event_replaceable_in_order_witness :
    StoreWF sInOrder ∧ ReplaceableInvariant sInOrder ∧
    (ev2.kind = 0 ∨ ev2.kind = 3) ∧
    ReplaceableInvariant (write_event 1 sInOrder ev2).1 :=
  ⟨by decide, by decide, Or.inl rfl,
   write_event_replaceable_in_order 1 sInOrder ev2 (by decide) (by decide)
     (Or.inl rfl) (by decide)⟩

/-! ### Helper lemmas for injection safety (C2) -/

theorem renderAtoms_append (l1 l2 : List QAtom) :
    renderAtoms (l1 ++ l2) = renderAtoms l1 ++ renderAtoms l2 := by
  induction l1 with
  | nil => simp [renderAtoms, String.empty_append]
  | cons a l ih => simp [renderAtoms, ih, String.append_assoc]

theorem renderAtoms_joinAtoms (sep : String) (ls : List (List QAtom)) :
    renderAtoms (joinAtoms sep ls) = joinSep sep (ls.map renderAtoms) := by
  induction ls with
  | nil => rfl
  | cons x ls ih =>
    cases ls with
    | nil => simp [joinAtoms, joinSep]
    | cons y xs =>
      simp only [joinAtoms, joinSep, List.map_cons]
      rw [renderAtoms_append]
      simp only [renderAtoms, QAtom.render]
      rw [ih]
      simp [joinSep, String.append_assoc]

theorem renderAtoms_inClauseAtoms (pre : String) (items : List (List QAtom)) :
    renderAtoms (inClauseAtoms pre items) = inClause pre (items.map renderAtoms) := by
  simp only [inClauseAtoms, inClause, renderAtoms, QAtom.render]
  rw [renderAtoms_append, renderAtoms_joinAtoms]
  simp [renderAtoms, QAtom.render, String.append_empty, String.append_assoc]

theorem hexItemAtoms_render (vs : List String) :
    (hexItemAtoms vs).map renderAtoms = hexItems vs := by
  simp [hexItemAtoms, hexItems, List.map_map, Function.comp, renderAtoms, QAtom.render,
    String.append_empty]

theorem natItemAtoms_render (ks : List Nat) :
    (ks.map (fun k => [QAtom.natLit k])).map renderAtoms =
      ks.map (fun k => toString k) := by
  simp [List.map_map, Function.comp, renderAtoms, QAtom.render, String.append_empty]

theorem authorsComp_render (f : Filter) :
    (authorsCompAtoms f).map renderAtoms = authorsComp f := by
  cases ha : f.authors <;>
    simp [authorsCompAtoms, authorsComp, ha, renderAtoms_inClauseAtoms, hexItemAtoms_render]

theorem kindsComp_render (f : Filter) :
    (kindsCompAtoms f).map renderAtoms = kindsComp f := by
  cases ha : f.kinds with
  | none => simp [kindsCompAtoms, kindsComp, ha]
  | some ks =>
    simp only [kindsCompAtoms, kindsComp, ha, List.map_cons, List.map_nil]
    rw [renderAtoms_inClauseAtoms]
    simp only [List.map_map]
    have hfun : (renderAtoms ∘ fun k : Nat => [QAtom.natLit k]) =
        fun k : Nat => toString k := by
      funext k
      simp [renderAtoms, QAtom.render, Function.comp, String.append_empty]
    rw [hfun]

theorem idsComp_render (f : Filter) :
    (idsCompAtoms f).map renderAtoms = idsComp f := by
  cases ha : f.ids <;>
    simp [idsCompAtoms, idsComp, ha, renderAtoms_inClauseAtoms, hexItemAtoms_render]

theorem eventsComp_render (f : Filter) :
    (eventsCompAtoms f).map renderAtoms = eventsComp f := by
  cases ha : f.events <;>
    simp [eventsCompAtoms, eventsComp, ha, renderAtoms_inClauseAtoms, hexItemAtoms_render]

theorem pubkeysComp_render (f : Filter) :
    (pubkeysCompAtoms f).map renderAtoms = pubkeysComp f := by
  cases ha : f.pubkeys <;>
    simp [pubkeysCompAtoms, pubkeysComp, ha, renderAtoms_inClauseAtoms, hexItemAtoms_render]

theorem sinceComp_render (f : Filter) :
    (sinceCompAtoms f).map renderAtoms = sinceComp f := by
  cases ha : f.since <;>
    simp [sinceCompAtoms, sinceComp, ha, renderAtoms, QAtom.render,
      String.append_empty, String.append_assoc]

theorem untilComp_render (f : Filter) :
    (untilCompAtoms f).map renderAtoms = untilComp f := by
  cases ha : f.«until» <;>
    simp [untilCompAtoms, untilComp, ha, renderAtoms, QAtom.render,
      String.append_empty, String.append_assoc]

theorem filterComponents_render (f : Filter) :
    (filterComponentAtoms f).map renderAtoms = filterComponents f := by
  simp [filterComponentAtoms, filterComponents, List.map_append, authorsComp_render,
    kindsComp_render, idsComp_render, eventsComp_render, pubkeysComp_render,
    sinceComp_render, untilComp_render]

theorem filterClause_render (f : Filter) :
    renderAtoms (filterClauseAtoms f) = filterClause f := by
  cases hc : filterComponentAtoms f with
  | nil =>
    have hnil : filterComponents f = [] := by
      rw [← filterComponents_render, hc]
      rfl
    simp [filterClauseAtoms, hc, filterClause, hnil, renderAtoms, QAtom.render,
      String.append_empty]
  | cons x l =>
    have hne : filterComponents f = (x :: l).map renderAtoms := by
      rw [← filterComponents_render, hc]
    simp only [filterClauseAtoms, hc, filterClause, hne]
    simp only [List.map_cons, List.isEmpty_cons, Bool.false_eq_true, if_false]
    simp only [renderAtoms, QAtom.render]
    rw [renderAtoms_append, renderAtoms_joinAtoms]
    simp [renderAtoms, QAtom.render, String.append_empty, String.append_assoc]

theorem clause_list_render (l : List Filter) :
    (l.map filterClauseAtoms).map renderAtoms = l.map filterClause := by
  induction l with
  | nil => rfl
  | cons f fs ih => simp [ih, filterClause_render]

/-- C2 part 1: the emitted query string renders exactly from the atom
decomposition. -/
theorem query_from_sub_render (sub : Subscription) :
    query_from_sub sub = renderAtoms (subAtoms sub) := by
  cases hf : sub.filters with
  | nil =>
    simp [query_from_sub, subAtoms, hf, renderAtoms, QAtom.render,
      renderAtoms_append, String.append_empty]
  | cons f fs =>
    simp only [query_from_sub, subAtoms, hf, List.map_cons, List.isEmpty_cons,
      Bool.false_eq_true, if_false]
    rw [renderAtoms_append]
    simp only [renderAtoms, QAtom.render]
    rw [renderAtoms_joinAtoms]
    simp only [List.map_cons]
    have hcl := clause_list_render (f :: fs)
    simp only [List.map_cons] at hcl
    rw [hcl]
    simp [String.append_empty, String.append_assoc]

theorem mem_joinAtoms (sep : String) (ls : List (List QAtom)) (a : QAtom)
    (ha : a ∈ joinAtoms sep ls) : a = QAtom.fixed sep ∨ ∃ l ∈ ls, a ∈ l := by
  induction ls with
  | nil => simp [joinAtoms] at ha
  | cons x ls ih =>
    cases ls with
    | nil =>
      right
      exact ⟨x, by simp, by simpa [joinAtoms] using ha⟩
    | cons y xs =>
      simp only [joinAtoms, List.mem_append, List.mem_cons] at ha
      rcases ha with h | h | h
      · exact Or.inr ⟨x, by simp, h⟩
      · exact Or.inl h
      · rcases ih h with h' | ⟨l, hl, hal⟩
        · exact Or.inl h'
        · exact Or.inr ⟨l, List.mem_cons_of_mem x hl, hal⟩

theorem mem_hexItemAtoms (vs : List String) (l : List QAtom)
    (hl : l ∈ hexItemAtoms vs) (a : QAtom) (ha : a ∈ l) :
    ∃ v, a = QAtom.blobLit v ∧ is_hex v = true ∧ v ∈ vs := by
  simp only [hexItemAtoms, List.mem_map, List.mem_filter] at hl
  obtain ⟨v, ⟨hv, hhex⟩, rfl⟩ := hl
  have hav : a = QAtom.blobLit v := by simpa using ha
  exact ⟨v, hav, hhex, hv⟩

theorem inClauseAtoms_hex_classify (pre : String) (vs : List String) (a : QAtom)
    (ha : a ∈ inClauseAtoms pre (hexItemAtoms vs)) :
    a = QAtom.fixed pre ∨ a = QAtom.fixed ")" ∨ a = QAtom.fixed ", " ∨
      ∃ v, a = QAtom.blobLit v ∧ is_hex v = true ∧ v ∈ vs := by
  simp only [inClauseAtoms, List.mem_cons, List.mem_append] at ha
  rcases ha with h | h | h
  · exact Or.inl h
  · rcases mem_joinAtoms ", " _ a h with h' | ⟨l, hl, hal⟩
    · exact Or.inr (Or.inr (Or.inl h'))
    · exact Or.inr (Or.inr (Or.inr (mem_hexItemAtoms vs l hl a hal)))
  · exact Or.inr (Or.inl (by simpa using h))

theorem inClauseAtoms_nat_classify (pre : String) (ks : List Nat) (a : QAtom)
    (ha : a ∈ inClauseAtoms pre (ks.map (fun k => [QAtom.natLit k]))) :
    a = QAtom.fixed pre ∨ a = QAtom.fixed ")" ∨ a = QAtom.fixed ", " ∨
      ∃ n, a = QAtom.natLit n ∧ n ∈ ks := by
  simp only [inClauseAtoms, List.mem_cons, List.mem_append] at ha
  rcases ha with h | h | h
  · exact Or.inl h
  · rcases mem_joinAtoms ", " _ a h with h' | ⟨l, hl, hal⟩
    · exact Or.inr (Or.inr (Or.inl h'))
    · simp only [List.mem_map] at hl
      obtain ⟨n, hn, rfl⟩ := hl
      exact Or.inr (Or.inr (Or.inr ⟨n, by simpa using hal, hn⟩))
  · exact Or.inr (Or.inl (by simpa using h))

theorem filterClauseAtoms_classify (f : Filter) (a : QAtom)
    (ha : a ∈ filterClauseAtoms f) :
    (∃ s, a = QAtom.fixed s ∧ s ∈ fixedAtomStrings) ∨
    (∃ n, a = QAtom.natLit n ∧ n ∈ f.kinds.getD []) ∨
    (∃ i, a = QAtom.intLit i ∧ i ∈ f.since.toList ++ f.«until».toList) ∨
    (∃ v, a = QAtom.blobLit v ∧ is_hex v = true ∧ v ∈ filterHexValues f) := by
  unfold filterClauseAtoms at ha
  split at ha
  · left
    exact ⟨"hidden!=TRUE", by simpa using ha, by simp [fixedAtomStrings]⟩
  · simp only [List.mem_cons, List.mem_append] at ha
    rcases ha with h | h | h
    · exact Or.inl ⟨"( ", h, by simp [fixedAtomStrings]⟩
    · rcases mem_joinAtoms " AND " _ a h with h' | ⟨l, hl, hal⟩
      · exact Or.inl ⟨" AND ", h', by simp [fixedAtomStrings]⟩
      · -- l is one of the seven components
        simp only [filterComponentAtoms, List.mem_append] at hl
        rcases hl with ((((((hc | hc) | hc) | hc) | hc) | hc) | hc)
        · rcases hau : f.authors with _ | vs <;> rw [authorsCompAtoms, hau] at hc <;>
            simp at hc
          subst hc
          rcases inClauseAtoms_hex_classify _ vs a hal with h' | h' | h' | ⟨v, hv, hhex, hvs⟩
          · exact Or.inl ⟨_, h', by simp [fixedAtomStrings]⟩
          · exact Or.inl ⟨_, h', by simp [fixedAtomStrings]⟩
          · exact Or.inl ⟨_, h', by simp [fixedAtomStrings]⟩
          · refine Or.inr (Or.inr (Or.inr ⟨v, hv, hhex, ?_⟩))
            simp [filterHexValues, hau, hvs]
        · rcases hau : f.kinds with _ | ks <;> rw [kindsCompAtoms, hau] at hc <;>
            simp at hc
          subst hc
          rcases inClauseAtoms_nat_classify _ ks a hal with h' | h' | h' | ⟨n, hn, hks⟩
          · exact Or.inl ⟨_, h', by simp [fixedAtomStrings]⟩
          · exact Or.inl ⟨_, h', by simp [fixedAtomStrings]⟩
          · exact Or.inl ⟨_, h', by simp [fixedAtomStrings]⟩
          · exact Or.inr (Or.inl ⟨n, hn, by simp [hau, hks]⟩)
        · rcases hau : f.ids with _ | vs <;> rw [idsCompAtoms, hau] at hc <;>
            simp at hc
          subst hc
          rcases inClauseAtoms_hex_classify _ vs a hal with h' | h' | h' | ⟨v, hv, hhex, hvs⟩
          · exact Or.inl ⟨_, h', by simp [fixedAtomStrings]⟩
          · exact Or.inl ⟨_, h', by simp [fixedAtomStrings]⟩
          · exact Or.inl ⟨_, h', by simp [fixedAtomStrings]⟩
          · refine Or.inr (Or.inr (Or.inr ⟨v, hv, hhex, ?_⟩))
            simp [filterHexValues, hau, hvs]
        · rcases hau : f.events with _ | vs <;> rw [eventsCompAtoms, hau] at hc <;>
            simp at hc
          subst hc
          rcases inClauseAtoms_hex_classify _ vs a hal with h' | h' | h' | ⟨v, hv, hhex, hvs⟩
          · exact Or.inl ⟨_, h', by simp [fixedAtomStrings]⟩
          · exact Or.inl ⟨_, h', by simp [fixedAtomStrings]⟩
          · exact Or.inl ⟨_, h', by simp [fixedAtomStrings]⟩
          · refine Or.inr (Or.inr (Or.inr ⟨v, hv, hhex, ?_⟩))
            simp [filterHexValues, hau, hvs]
        · rcases hau : f.pubkeys with _ | vs <;> rw [pubkeysCompAtoms, hau] at hc <;>
            simp at hc
          subst hc
          rcases inClauseAtoms_hex_classify _ vs a hal with h' | h' | h' | ⟨v, hv, hhex, hvs⟩
          · exact Or.inl ⟨_, h', by simp [fixedAtomStrings]⟩
          · exact Or.inl ⟨_, h', by simp [fixedAtomStrings]⟩
          · exact Or.inl ⟨_, h', by simp [fixedAtomStrings]⟩
          · refine Or.inr (Or.inr (Or.inr ⟨v, hv, hhex, ?_⟩))
            simp [filterHexValues, hau, hvs]
        · rcases hau : f.since with _ | v <;> rw [sinceCompAtoms, hau] at hc <;>
            simp at hc
          subst hc
          simp only [List.mem_cons, List.not_mem_nil, or_false] at hal
          rcases hal with hal | hal
          · exact Or.inl ⟨_, by rw [hal], by simp [fixedAtomStrings]⟩
          · refine Or.inr (Or.inr (Or.inl ⟨v, by simpa using hal, ?_⟩))
            simp [hau]
        · rcases hau : f.«until» with _ | v <;> rw [untilCompAtoms, hau] at hc <;>
            simp at hc
          subst hc
          simp only [List.mem_cons, List.not_mem_nil, or_false] at hal
          rcases hal with hal | hal
          · exact Or.inl ⟨_, by rw [hal], by simp [fixedAtomStrings]⟩
          · refine Or.inr (Or.inr (Or.inl ⟨v, by simpa using hal, ?_⟩))
            simp [hau]
    · exact Or.inl ⟨" )", by simpa using h, by simp [fixedAtomStrings]⟩

/-! ### C2 -/

/-- C2: the query string of `query_from_sub` decomposes into atoms, and
every atom is either a fixed skeleton string from a closed whitelist
(never user input), a decimal literal of one of the subscription's
integers (kinds, since, until), or a blob literal `x'...'` of a value
that passed the per-character hex check; consequently values failing
the hex check never reach the query, and no user string is interpolated
as text. -/
theorem planner_injection_safety (sub : Subscription) :
    query_from_sub sub = renderAtoms (subAtoms sub) ∧
    ∀ a ∈ subAtoms sub, AtomOK sub a := by
  refine ⟨query_from_sub_render sub, ?_⟩
  intro a ha
  unfold subAtoms at ha
  rw [List.mem_append] at ha
  have horder : AtomOK sub (QAtom.fixed " ORDER BY created_at ASC") := by
    simp [AtomOK, fixedAtomStrings]
  rcases ha with h | h
  · split at h
    · have hb : a = QAtom.fixed baseQuery := by simpa using h
      rw [hb]
      simp [AtomOK, fixedAtomStrings]
    · simp only [List.mem_cons] at h
      rcases h with h | h | h
      · rw [h]
        simp [AtomOK, fixedAtomStrings]
      · rw [h]
        simp [AtomOK, fixedAtomStrings]
      · rcases mem_joinAtoms " OR " _ a h with h' | ⟨l, hl, hal⟩
        · rw [h']
          simp [AtomOK, fixedAtomStrings]
        · simp only [List.mem_map] at hl
          obtain ⟨f, hf, rfl⟩ := hl
          rcases filterClauseAtoms_classify f a hal with
            ⟨s, hs, hsm⟩ | ⟨n, hn, hnm⟩ | ⟨i, hi, him⟩ | ⟨v, hv, hhex, hvm⟩
          · rw [hs]
            simpa [AtomOK] using hsm
          · rw [hn]
            simp only [AtomOK, subNatValues]
            exact List.mem_flatMap.mpr ⟨f, hf, hnm⟩
          · rw [hi]
            simp only [AtomOK, subIntValues]
            exact List.mem_flatMap.mpr ⟨f, hf, him⟩
          · rw [hv]
            refine ⟨hhex, ?_⟩
            simp only [subHexValues]
            exact List.mem_flatMap.mpr ⟨f, hf, hvm⟩
  · have hb : a = QAtom.fixed " ORDER BY created_at ASC" := by simpa using h
    rw [hb]
    exact horder

theorem planner_injection_safety_witness :
    query_from_sub subSample = renderAtoms (subAtoms subSample) ∧
    QAtom.blobLit "ab" ∈ subAtoms subSample ∧
    AtomOK subSample (QAtom.blobLit "ab") :=
  ⟨(planner_injection_safety subSample).1, by decide,
   (planner_injection_safety subSample).2 (QAtom.blobLit "ab") (by decide)⟩

end Nostrd
